import Mathlib

set_option maxRecDepth 100000

/-!
Verification development for the dnd-ai-generators backend (src/main.cpp).

The C++ program is shallowly embedded here over lists of characters.
Strings of the program are `List Char`; machine integers holding epoch
seconds and expires_in values are `Int`/`Nat`; fallible operations return
`Except`/`Option`.  The third-party JSON library (nlohmann) is modelled by
an executable JSON value type with a compact serializer and a fueled
recursive-descent parser; the model covers compact JSON without escape
sequences or floating-point numbers, which is the fragment the proved
claims exercise.  OpenSSL base64 encoding is modelled by a standard
base64 encoder; RSA signing and the HTTP transport are parameters.
-/

namespace DndSpec

/-- Character lists stand for C++ `std::string` values. -/
abbrev Str := List Char

/-- View a Lean string literal as a character list. -/
def s2l (s : String) : Str := s.data

/-- Whitespace set of the trim helper in main.cpp (space, tab, CR, LF). -/
def isWsChar (c : Char) : Bool := c = ' ' || c = '\t' || c = '\r' || c = '\n'

/-- `trim` from main.cpp: drop leading and trailing whitespace, empty when
the input is all whitespace. -/
def trimChars (l : Str) : Str :=
  ((l.dropWhile isWsChar).reverse.dropWhile isWsChar).reverse

/-- Index of the first occurrence of a character, `std::string::find`. -/
def firstIdxOf (c : Char) : Str → Option Nat
  | [] => none
  | x :: xs => if x = c then some 0 else (firstIdxOf c xs).map (· + 1)

/-- Index of the last occurrence of a character, `std::string::rfind`
and `find_last_of` for a single character. -/
def lastIdxOf (c : Char) : Str → Option Nat
  | [] => none
  | x :: xs =>
    match lastIdxOf c xs with
    | some i => some (i + 1)
    | none => if x = c then some 0 else none

/-- Does `pat` occur at the start of `l`? -/
def leadsWith : Str → Str → Bool
  | [], _ => true
  | _ :: _, [] => false
  | a :: as, b :: bs => a = b && leadsWith as bs

/-- Does `pat` occur as a contiguous substring of `l`? -/
def containsSub (pat : Str) : Str → Bool
  | [] => pat.isEmpty
  | c :: rest => leadsWith pat (c :: rest) || containsSub pat rest

/-- JSON values, modelling `nlohmann::json` over the fragment the program
manipulates (no floating-point numbers, no escape sequences). -/
inductive Json where
  | null
  | bool (b : Bool)
  | num (n : Int)
  | str (s : Str)
  | arr (elems : List Json)
  | obj (members : List (Str × Json))

/-- Object member lookup by key (first match). -/
def lookupField : List (Str × Json) → Str → Option Json
  | [], _ => none
  | (k, v) :: rest, key => if k = key then some v else lookupField rest key

/-- Replace the value stored at a key, appending when absent; models
`json::operator[]` assignment on an object. -/
def setField : List (Str × Json) → Str → Json → List (Str × Json)
  | [], key, v => [(key, v)]
  | (k, w) :: rest, key, v =>
    if k = key then (key, v) :: rest else (k, w) :: setField rest key v

/-- The character of a decimal digit. -/
def digitChar (d : Nat) : Char := (s2l "0123456789").getD d '0'

/-- Decimal digits, most significant first, by fueled division;
`fuel` beyond the value itself is always sufficient. -/
def natToCharsAux : Nat → Nat → Str
  | 0, _ => []
  | fuel + 1, n =>
    if n < 10 then [digitChar n]
    else natToCharsAux fuel (n / 10) ++ [digitChar (n % 10)]

/-- Decimal digits of a natural number, most significant first; models
`operator<<` on a non-negative integer. -/
def natToChars (n : Nat) : Str := natToCharsAux (n + 1) n

/-- Decimal rendering of an integer. -/
def intToChars (n : Int) : Str :=
  if n < 0 then '-' :: natToChars n.natAbs else natToChars n.toNat

mutual
/-- Compact serialization, modelling `nlohmann::json::dump()` on values
whose strings need no escaping. -/
def dumpJson : Json → Str
  | .null => s2l "null"
  | .bool true => s2l "true"
  | .bool false => s2l "false"
  | .num n => intToChars n
  | .str s => '"' :: s ++ ['"']
  | .arr xs => '[' :: dumpElemsJ xs ++ [']']
  | .obj ms => '\x7b' :: dumpMembersJ ms ++ ['\x7d']

/-- Comma-joined serialization of array elements. -/
def dumpElemsJ : List Json → Str
  | [] => []
  | [x] => dumpJson x
  | x :: y :: rest => dumpJson x ++ ',' :: dumpElemsJ (y :: rest)

/-- Comma-joined serialization of object members. -/
def dumpMembersJ : List (Str × Json) → Str
  | [] => []
  | [(k, v)] => '"' :: k ++ '"' :: ':' :: dumpJson v
  | (k, v) :: m :: rest =>
      ('"' :: k ++ '"' :: ':' :: dumpJson v) ++ ',' :: dumpMembersJ (m :: rest)
end

/-- A character that serializes into a JSON string verbatim: printable,
not a quote, not a backslash. -/
def cleanChar (c : Char) : Bool := c ≠ '"' && c ≠ '\\' && 32 ≤ c.toNat

/-- A string needing no JSON escaping. -/
def cleanStr (l : Str) : Bool := l.all cleanChar

/-- Field values a structurally valid Generated Item may hold: a clean
string, an array of clean strings, or a non-negative integer. -/
def validValue : Json → Bool
  | .str s => cleanStr s
  | .arr xs => xs.all fun v => match v with | .str s => cleanStr s | _ => false
  | .num n => decide (0 ≤ n)
  | _ => false

/-- Strict lexicographic order on character lists, mirroring the
`std::map` key order inside an `nlohmann::json` object. -/
def keyLt : Str → Str → Bool
  | [], [] => false
  | [], _ :: _ => true
  | _ :: _, [] => false
  | a :: as, b :: bs => a < b || (a = b && keyLt as bs)

/-- Keys strictly increasing. -/
def keysSorted : List Str → Bool
  | [] => true
  | [_] => true
  | a :: b :: rest => keyLt a b && keysSorted (b :: rest)

/-- A structurally valid Generated Item: a JSON object with clean,
strictly sorted field names and string / string-array / number values -
the shape the spec's Generated Item data model describes. -/
def validItem : Json → Bool
  | .obj ms =>
      keysSorted (ms.map (·.1)) &&
      ms.all fun m => cleanStr m.1 && validValue m.2
  | _ => false

/-- Scan a JSON string body up to its closing quote (escape sequences are
outside the modelled fragment). -/
def scanString : Str → Option (Str × Str)
  | [] => none
  | c :: rest =>
    if c = '"' then some ([], rest)
    else
      match scanString rest with
      | none => none
      | some (s, r) => some (c :: s, r)

/-- Consume a maximal run of decimal digits, accumulating their value. -/
def scanDigits : Str → Nat → Nat × Str
  | [], acc => (acc, [])
  | c :: rest, acc =>
    if c.isDigit then scanDigits rest (10 * acc + (c.toNat - 48))
    else (acc, c :: rest)

mutual
/-- Recursive-descent JSON value parser (fueled), modelling
`nlohmann::json::parse` on compact JSON without escapes or floats. -/
def parseVal : Nat → Str → Option (Json × Str)
  | 0, _ => none
  | fuel + 1, l =>
    match l with
    | [] => none
    | c :: rest =>
      if c = '\x7b' then
        if rest.head? = some '\x7d' then some (.obj [], rest.tail)
        else
          match parseMembers fuel rest with
          | none => none
          | some (ms, r) => some (.obj ms, r)
      else if c = '[' then
        if rest.head? = some ']' then some (.arr [], rest.tail)
        else
          match parseElems fuel rest with
          | none => none
          | some (es, r) => some (.arr es, r)
      else if c = '"' then
        match scanString rest with
        | none => none
        | some (s, r) => some (.str s, r)
      else if l.take 4 = s2l "true" then some (.bool true, l.drop 4)
      else if l.take 5 = s2l "false" then some (.bool false, l.drop 5)
      else if l.take 4 = s2l "null" then some (.null, l.drop 4)
      else if c = '-' then
        match rest with
        | [] => none
        | c2 :: _ =>
          if c2.isDigit then
            match scanDigits rest 0 with
            | (n, r) => some (.num (-(Int.ofNat n)), r)
          else none
      else if c.isDigit then
        match scanDigits l 0 with
        | (n, r) => some (.num (Int.ofNat n), r)
      else none

/-- Parse one or more `"key":value` members up to the closing brace. -/
def parseMembers : Nat → Str → Option (List (Str × Json) × Str)
  | 0, _ => none
  | fuel + 1, l =>
    match l with
    | [] => none
    | c :: rest =>
      if c = '"' then
        match scanString rest with
        | none => none
        | some (key, r1) =>
          if r1.head? = some ':' then
            match parseVal fuel r1.tail with
            | none => none
            | some (v, r3) =>
              if r3.head? = some ',' then
                match parseMembers fuel r3.tail with
                | none => none
                | some (ms, r5) => some ((key, v) :: ms, r5)
              else if r3.head? = some '\x7d' then some ([(key, v)], r3.tail)
              else none
          else none
      else none

/-- Parse one or more array elements up to the closing bracket. -/
def parseElems : Nat → Str → Option (List Json × Str)
  | 0, _ => none
  | fuel + 1, l =>
    match parseVal fuel l with
    | none => none
    | some (v, r) =>
      if r.head? = some ',' then
        match parseElems fuel r.tail with
        | none => none
        | some (es, r3) => some (v :: es, r3)
      else if r.head? = some ']' then some ([v], r.tail)
      else none
end

/-- Parse a complete JSON document: one value consuming the whole input,
as `json::parse` demands. -/
def parseJson (l : Str) : Option Json :=
  match parseVal (2 * l.length + 2) l with
  | some (j, []) => some j
  | _ => none

/-- The one hard extraction error of the pipeline: a brace-delimited span
was located but failed to parse (spec taxonomy `MalformedResponse`). -/
inductive ExtractError where
  | malformedResponse

/-- Step 5 of `queryGemini` in main.cpp: find the first brace and the last
closing brace of the raw model text; when either is missing or mis-ordered
return the whole upstream envelope `full` unchanged; otherwise parse the
brace-delimited span, a parse failure being the hard error. -/
def extractJson (full : Json) (raw : Str) : Except ExtractError Json :=
  match firstIdxOf '\x7b' raw, lastIdxOf '\x7d' raw with
  | some s, some e =>
    if e ≤ s then .ok full
    else
      match parseJson ((raw.drop s).take (e - s + 1)) with
      | some j => .ok j
      | none => .error .malformedResponse
  | some _, none => .ok full
  | none, _ => .ok full

/-- `adjustWeight` from main.cpp: when the object holds a string field
`Weight`, trim it, split at the last space, and rewrite the field as the
trimmed numeric part followed by `lb.` when that part is exactly `1` and
`lbs.` otherwise; any other shape is left untouched. -/
def adjustWeight (out : Json) : Json :=
  match out with
  | .obj ms =>
    match lookupField ms (s2l "Weight") with
    | some (.str w0) =>
      let w := trimChars w0
      match lastIdxOf ' ' w with
      | none => out
      | some pos =>
        let numericPart := trimChars (w.take pos)
        let unit : Str := if numericPart = s2l "1" then s2l "lb." else s2l "lbs."
        .obj (setField ms (s2l "Weight") (.str (numericPart ++ ' ' :: unit)))
    | _ => out
  | _ => out

/-- The string field `Weight` of a JSON value, when present. -/
def weightString (j : Json) : Option Str :=
  match j with
  | .obj ms =>
    match lookupField ms (s2l "Weight") with
    | some (.str w) => some w
    | _ => none
  | _ => none

/-! ### Token cache (`getAccessToken` and `refreshTokenWithJwt`) -/

/-- The process-wide cached token state: `cached_token` and
`token_expiry` (epoch seconds). -/
structure TokenCache where
  value : Str
  expiresAt : Int

/-- The refresh condition of `getAccessToken`: cached value empty, or the
current instant plus one minute has reached the recorded expiry. -/
def needsRefresh (c : TokenCache) (now : Int) : Bool :=
  c.value.isEmpty || decide (now + 60 ≥ c.expiresAt)

/-- One `getAccessToken` call under the lock at instant `now`.  The
`refresh` argument is the outcome of minting a JWT and exchanging it at
the token endpoint (`refreshTokenWithJwt`): on success an access token
with its `expires_in`, on failure the thrown credential error.  Returns
the cache state after the call together with the result handed to the
caller; a refresh failure propagates and, as in the C++ (the assignments
sit after the throwing call), leaves both cached fields untouched. -/
def getAccessToken (c : TokenCache) (now : Int)
    (refresh : Except Str (Str × Int)) : TokenCache × Except Str Str :=
  if needsRefresh c now then
    match refresh with
    | .error e => (c, .error e)
    | .ok (tok, expSecs) => ({ value := tok, expiresAt := now + expSecs }, .ok tok)
  else (c, .ok c.value)

/-! ### JWT minting (`base64UrlEncode`, `makeJwt`) -/

/-- The base64 alphabet. -/
def b64Table : Str := s2l "ABCDEFGHIJKLMNOPQRSTUVWXYZabcdefghijklmnopqrstuvwxyz0123456789+/"

/-- Character for a 6-bit group. -/
def b64Char (n : Nat) : Char := b64Table.getD n 'A'

/-- Standard padded base64 of a byte sequence, modelling
`EVP_EncodeBlock`. -/
def base64Encode : List Nat → Str
  | [] => []
  | [a] => [b64Char (a / 4), b64Char (a % 4 * 16), '=', '=']
  | [a, b] => [b64Char (a / 4), b64Char (a % 4 * 16 + b / 16), b64Char (b % 16 * 4), '=']
  | a :: b :: c :: rest =>
      b64Char (a / 4) :: b64Char (a % 4 * 16 + b / 16) ::
      b64Char (b % 16 * 4 + c / 64) :: b64Char (c % 64) :: base64Encode rest

/-- The character loop of `base64UrlEncode` in main.cpp: `+` becomes `-`,
`/` becomes `_`, and the loop stops at the first `=`. -/
def urlSafeChars : Str → Str
  | [] => []
  | c :: cs =>
    if c = '+' then '-' :: urlSafeChars cs
    else if c = '/' then '_' :: urlSafeChars cs
    else if c = '=' then []
    else c :: urlSafeChars cs

/-- Bytes of an ASCII string. -/
def strBytes (l : Str) : List Nat := l.map Char.toNat

/-- `base64UrlEncode` from main.cpp, on a byte sequence. -/
def base64UrlEncode (bs : List Nat) : Str := urlSafeChars (base64Encode bs)

/-- The per-character replacement the claim describes. -/
def b64UrlRepl (c : Char) : Char :=
  if c = '+' then '-' else if c = '/' then '_' else c

/-- The fixed JWT header of `makeJwt`. -/
def jwtHeader : Str := s2l "\x7b\"alg\":\"RS256\",\"typ\":\"JWT\"\x7d"

/-- The JWT payload text `makeJwt` splices for issuer `email` at epoch
second `now` (expiry one hour later). -/
def jwtPayload (email : Str) (now : Nat) : Str :=
  '\x7b' :: (s2l "\"iss\":\"" ++ (email ++ (s2l "\"," ++
    (s2l "\"scope\":\"https://www.googleapis.com/auth/cloud-platform\"," ++
    (s2l "\"aud\":\"https://oauth2.googleapis.com/token\"," ++
    (s2l "\"iat\":" ++ (natToChars now ++ (',' ::
    (s2l "\"exp\":" ++ (natToChars (now + 3600) ++ ['\x7d']))))))))))

/-- `makeJwt` from main.cpp: the signed assertion
`b64url(header).b64url(payload).b64url(signature)`, where `sign` models
`rsaSha256Sign` before its own base64url step (the raw RSA-SHA256
signature bytes of the signing input). -/
def makeJwt (email : Str) (now : Nat) (sign : Str → List Nat) : Str :=
  let part := base64UrlEncode (strBytes jwtHeader) ++
    '.' :: base64UrlEncode (strBytes (jwtPayload email now))
  part ++ '.' :: base64UrlEncode (sign part)

/-- The JSON object the payload text denotes. -/
def jwtPayloadObj (email : Str) (now : Nat) : Json :=
  Json.obj [
    (s2l "iss", Json.str email),
    (s2l "scope", Json.str (s2l "https://www.googleapis.com/auth/cloud-platform")),
    (s2l "aud", Json.str (s2l "https://oauth2.googleapis.com/token")),
    (s2l "iat", Json.num (Int.ofNat now)),
    (s2l "exp", Json.num (Int.ofNat (now + 3600)))]

/-! ### Prompt composition (`queryGemini`, step 1) -/

/-- Opening role statement shared by every category. -/
def promptHeader : Str :=
  s2l "You are a Dungeons & Dragons 5E gear generator.\n" ++
  s2l "Produce ONLY a single JSON object (no extra text).\n"

def weaponSchema : Str := s2l "\x7b\n\t\t\t\t\t\"Name\": \"...\",\n\t\t\t\t\t\"Category\": \"...\",\n\t\t\t\t\t\"Type\": \"...\",\n\t\t\t\t\t\"Rarity\": \"...\",\n\t\t\t\t\t\"Cost\": \"...\",\n\t\t\t\t\t\"DamageDice\": \"...\",\n\t\t\t\t\t\"DamageType\": \"...\",\n\t\t\t\t\t\"Weight\": \"...\",\n\t\t\t\t\t\"Properties\": [\"...\", \"...\"],\n\t\t\t\t\t\"Description\": \"...\"\n\t\t\t\t\x7d"

def armorSchemaA : Str := s2l "\x7b\n\t\t\t\"Name\": \"...\",\n\t\t\t\"Piece\": \"...\",                  // headgear / clothes / etc.\n\t\t\t\"Category\": \"...\",               // clothes/light/medium/heavy\n\t\t\t\"ArmorClass\": \"...\",             // N/A or number\n\t\t\t\"Attunement\": \"...\",             // Yes/No\n\t\t\t\"StealthDisadvantage\": \"...\",    // Yes/No\n\t\t\t\"Weight\": \"...\",                 // e.g. \"1 lb.\" or \"1 1/2 lbs.\"\n\t\t\t\"Cost\": \"...\",                   // e.g. \"15 gp\"\n\t\t\t\"Properties\": [\"...\", \"...\"],\n\t\t\t\"Description\": \"...\"             // lore + benefits\n\t\t\x7d"

def armorSchemaB : Str := s2l "\x7b\n\t\t\t\"Name\": \"...\",\n\t\t\t\"ItemType\": \"...\",\n\t\t\t\"Rarity\": \"...\",\n\t\t\t\"Category\": \"...\",\n\t\t\t\"Cost\": \"...\",\n\t\t\t\"ArmorClass\": \"...\",\n\t\t\t\"Attunement\": \"...\",\n\t\t\t\"Weight\": \"...\",\n\t\t\t\"Properties\": [\"...\", \"...\"],\n\t\t\t\"Description\": \"...\"\n\t\t\x7d"

def jewelrySchema : Str := s2l "\x7b\n\t\t\t\t\t\"Name\": \"...\",\n\t\t\t\t\t\"Type\": \"...\",\n\t\t\t\t\t\"Rarity\": \"...\",\n\t\t\t\t\t\"Weight\": \"...\",\n\t\t\t\t\t\"Description\": \"...\"\n\t\t\t\t\x7d\n\t\t\t\t"

/-- Weapon and armor description instruction when an enchantment is
allowed (the two branches splice the identical text). -/
def gearEnchantInstr : Str :=
  s2l "Description: include a short history, benefits, and an enchantment in 150 words or less, scale the enchantments appropriately according to rarity, only add curses to items of legendary rarity or greater, most importantly: be original and imaginative. Do not rely on the term \"dying star\". You are encouraged to use 1/2 lb. measurements on light items (e.g. 1/2 lb. or 1 1/2 lb.).\n"

/-- Weapon description instruction for Common rarity. -/
def weaponPlainInstr : Str :=
  s2l "Description: include a short history and benefits in 150 words or less (do NOT include any enchantment). Most importantly: be original and imaginative. Do not rely on the term \"dying star\". You are encouraged to use 1/2 lb. measurements on light items (e.g. 1/2 lb. or 1 1/2 lb.).\n"

/-- Armor description instruction for Common rarity. -/
def armorPlainInstr : Str :=
  s2l "Description: include a short history and benefits in 150 words or less (do NOT include any enchantment or curse). Most importantly: be original and imaginative. Do not rely on the term \"dying star\". You are encouraged to use 1/2 lb. measurements on light items (e.g. 1/2 lb. or 1 1/2 lb.).\n"

/-- Jewelry description instruction when an enchantment is allowed. -/
def jewelryEnchantInstr : Str :=
  s2l "Description: include a short history, benefits, and an enchantment in 150 words or less, scale the enchantments appropriately according to rarity, only add curses to items of legendary rarity or greater, most importantly: be original and imaginative, you are encouraged to combine fantasy sources, do not rely on terms like \"serpent\" or \"whispering sand\". Item weight should be a minimum of 1/2 lb.\n"

/-- Jewelry description instruction for Common rarity. -/
def jewelryPlainInstr : Str :=
  s2l "Description: include a short history and benefits in 150 words or less (do NOT include any enchantment or curse). Most importantly: be original and imaginative, you are encouraged to combine fantasy sources, do not rely on terms like \"serpent\" or \"whispering sand\". Item weight should be a minimum of 1/2 lb.\n"

/-- `allowEnchantment` from `queryGemini`. -/
def allowEnchantment (rarity : Str) : Bool := rarity ≠ s2l "Common"

/-- Everything the weapon branch streams before its description
instruction, atom for atom after the stream inserts of main.cpp. -/
def weaponPromptBody (name handedness subtype rarity extraDesc : Str) : Str :=
  promptHeader ++
  s2l "I want a weapon\n" ++
  (if name.isEmpty then [] else s2l " called \"" ++ name ++ s2l "\"") ++
  s2l " with these parameters:\n" ++
  s2l "  Category: " ++ handedness ++ s2l "\n" ++
  s2l "  Type: " ++ subtype ++ s2l "\n" ++
  s2l "  Rarity: " ++ rarity ++ s2l "\n\n" ++
  (if extraDesc.isEmpty then [] else s2l "\nAdditional Details: " ++ extraDesc ++ s2l "\n") ++
  s2l "Your JSON schema should be:\n" ++ weaponSchema ++
  s2l "\nPopulate only the fields after those prefilled above.\n"

/-- The weapon branch of the prompt builder: body, then the
enchantment-gated description instruction. -/
def weaponPrompt (name handedness subtype rarity extraDesc : Str) : Str :=
  weaponPromptBody name handedness subtype rarity extraDesc ++
  (if allowEnchantment rarity then gearEnchantInstr else weaponPlainInstr)

/-- Everything the armor branch streams before its description
instruction (the armor parameter block carries no rarity line; rarity
only gates the instruction). -/
def armorPromptBody (name subtype clothingPiece extraDesc : Str) : Str :=
  promptHeader ++
  s2l "I want an armor/clothing item\n" ++
  (if name.isEmpty then [] else s2l " called \"" ++ name ++ s2l "\"") ++
  s2l " with these parameters:\n" ++
  s2l "  Category: " ++ subtype ++ s2l "\n" ++
  s2l "  Piece: " ++ clothingPiece ++ s2l "\n" ++
  s2l "  Armor Class: " ++ (if subtype = s2l "Clothes" then s2l "N/A" else subtype) ++ s2l "\n" ++
  s2l "  Attunement: " ++ (if subtype = s2l "Clothes" then s2l "No" else s2l "Yes") ++ s2l "\n" ++
  s2l "  Stealth Disadvantage: " ++
    (if subtype = s2l "Heavy" || subtype = s2l "Shield" then s2l "Yes" else s2l "No") ++
  s2l "\n\n" ++
  s2l "Your JSON schema should be:\n" ++ armorSchemaA ++
  (if clothingPiece.isEmpty then [] else s2l "  ClothingPiece: " ++ clothingPiece ++ s2l "\n") ++
  (if extraDesc.isEmpty then [] else s2l "\nAdditional Details: " ++ extraDesc ++ s2l "\n") ++
  s2l "\nYour JSON schema should be:\n" ++ armorSchemaB ++
  s2l "\nPopulate fields after those prefilled above.\n"

/-- The armor branch of the prompt builder. -/
def armorPrompt (name subtype rarity clothingPiece extraDesc : Str) : Str :=
  armorPromptBody name subtype clothingPiece extraDesc ++
  (if allowEnchantment rarity then gearEnchantInstr else armorPlainInstr)

/-- Everything the jewelry (default) branch streams before its
description instruction. -/
def jewelryPromptBody (name subtype rarity extraDesc : Str) : Str :=
  promptHeader ++
  s2l "You are a Dungeons & Dragons 5E jewelry crafter.\n" ++
  s2l "Produce ONLY a single JSON object (no extra text).\n" ++
  s2l "I want a piece of jewelry with these parameters:\n" ++
  s2l "• Name: " ++ name ++ s2l "\n" ++
  s2l "• Type: " ++ subtype ++ s2l "\n" ++
  s2l "• Rarity: " ++ rarity ++ s2l "\n" ++
  (if extraDesc.isEmpty then [] else s2l "• Additional Details: " ++ extraDesc ++ s2l "\n") ++
  s2l "\nYour JSON schema should be:\n" ++ jewelrySchema ++
  s2l "\nPopulate only the fields after those prefilled above.\n"

/-- The jewelry branch of the prompt builder. -/
def jewelryPrompt (name subtype rarity extraDesc : Str) : Str :=
  jewelryPromptBody name subtype rarity extraDesc ++
  (if allowEnchantment rarity then jewelryEnchantInstr else jewelryPlainInstr)

/-- The full prompt `queryGemini` composes from a generation request. -/
def buildPrompt (name kind handedness subtype rarity clothingPiece extraDesc : Str) : Str :=
  if kind = s2l "Weapon" then weaponPrompt name handedness subtype rarity extraDesc
  else if kind = s2l "Armor" then armorPrompt name subtype rarity clothingPiece extraDesc
  else jewelryPrompt name subtype rarity extraDesc

/-- The description instruction a prompt ends with, determined by the
category branch and the enchantment gate. -/
def descInstr (kind rarity : Str) : Str :=
  if kind = s2l "Weapon" then
    if allowEnchantment rarity then gearEnchantInstr else weaponPlainInstr
  else if kind = s2l "Armor" then
    if allowEnchantment rarity then gearEnchantInstr else armorPlainInstr
  else
    if allowEnchantment rarity then jewelryEnchantInstr else jewelryPlainInstr

/-! ### Proof-support definitions -/

/-- Accumulated decimal value of a digit run. -/
def digitsVal (acc : Nat) (ds : Str) : Nat :=
  ds.foldl (fun a c => 10 * a + (c.toNat - 48)) acc

/-- Fueled power of ten matching the digit count of `n`. -/
def tenPowAux : Nat → Nat → Nat
  | 0, _ => 1
  | fuel + 1, n => if n < 10 then 10 else tenPowAux fuel (n / 10) * 10

/-- The head of the remainder is not a digit (so a digit scan stops). -/
def headNotDigit : Str → Bool
  | [] => true
  | c :: _ => !c.isDigit

/-! ### Basic lemmas about the character-list helpers -/

theorem firstIdxOf_eq_none_iff (c : Char) (l : Str) :
    firstIdxOf c l = none ↔ c ∉ l := by
  induction l with
  | nil => simp [firstIdxOf]
  | cons x xs ih =>
    rw [firstIdxOf]
    by_cases hx : x = c
    · subst hx
      simp
    · have hcx : ¬ c = x := fun h => hx h.symm
      simp [hx, hcx, Option.map_eq_none', ih]

theorem lastIdxOf_eq_none_iff (c : Char) (l : Str) :
    lastIdxOf c l = none ↔ c ∉ l := by
  induction l with
  | nil => simp [lastIdxOf]
  | cons x xs ih =>
    rw [lastIdxOf]
    cases h : lastIdxOf c xs with
    | some i => simp [h] at ih; simp [ih]
    | none =>
      rw [ih] at h
      by_cases hx : x = c
      · subst hx
        simp [h]
      · have hcx : ¬ c = x := fun hcx => hx hcx.symm
        simp [hx, hcx, h]

theorem lastIdxOf_get (c : Char) (l : Str) (i : Nat)
    (h : lastIdxOf c l = some i) : l.get? i = some c := by
  induction l generalizing i with
  | nil => simp [lastIdxOf] at h
  | cons x xs ih =>
    rw [lastIdxOf] at h
    cases hx : lastIdxOf c xs with
    | some j =>
      rw [hx] at h
      cases h
      simpa using ih j hx
    | none =>
      rw [hx] at h
      by_cases he : x = c
      · rw [if_pos he] at h
        cases h
        simp [he]
      · rw [if_neg he] at h
        cases h

theorem lastIdxOf_append_sep (c : Char) (xs ys : Str) (hys : c ∉ ys) :
    lastIdxOf c (xs ++ c :: ys) = some xs.length := by
  induction xs with
  | nil => simp [lastIdxOf, (lastIdxOf_eq_none_iff c ys).2 hys]
  | cons x xs ih => simp [lastIdxOf, ih]

/-! ### Claim theorems: token cache -/

/-- Claim C2: a `getAccessToken` call refreshes exactly when the cached
value is empty or `now + 60` seconds has reached the recorded expiry; an
expiry 30 seconds away triggers the refresh and one 120 seconds away does
not; when no refresh is triggered the cached value is returned and the
cache is unchanged; a triggered refresh overwrites both cached fields. -/
theorem c2_token_cache_refresh_margin :
    (∀ (c : TokenCache) (now : Int),
      needsRefresh c now = true ↔ (c.value = [] ∨ now + 60 ≥ c.expiresAt))
    ∧ (∀ (c : TokenCache) (now : Int) (r : Except Str (Str × Int)),
        needsRefresh c now = false → getAccessToken c now r = (c, .ok c.value))
    ∧ (∀ (c : TokenCache) (now : Int) (tok : Str) (s : Int),
        needsRefresh c now = true →
          getAccessToken c now (.ok (tok, s)) =
            ({ value := tok, expiresAt := now + s }, .ok tok))
    ∧ (∀ (v : Str) (now : Int), needsRefresh ⟨v, now + 30⟩ now = true)
    ∧ (∀ (v : Str) (now : Int), v ≠ [] → needsRefresh ⟨v, now + 120⟩ now = false) := by
  refine ⟨fun c now => ?_, fun c now r h => ?_, fun c now tok s h => ?_,
    fun v now => ?_, fun v now hv => ?_⟩
  · simp [needsRefresh, List.isEmpty_iff, ge_iff_le]
  · simp [getAccessToken, h]
  · simp [getAccessToken, h]
  · have h30 : now + 60 ≥ now + 30 := by omega
    simp [needsRefresh, h30]
  · have h120 : ¬ now + 60 ≥ now + 120 := by omega
    simp [needsRefresh, List.isEmpty_iff, hv, h120]

/-- Witness for C2 at a concrete cache state and clock. -/
theorem c2_witness :
    needsRefresh ⟨s2l "tok", 0 + 30⟩ 0 = true
    ∧ needsRefresh ⟨s2l "tok", 0 + 120⟩ 0 = false
    ∧ getAccessToken ⟨s2l "tok", 0 + 120⟩ 0 (.error (s2l "boom")) =
        (⟨s2l "tok", 0 + 120⟩, .ok (s2l "tok")) :=
  ⟨c2_token_cache_refresh_margin.2.2.2.1 (s2l "tok") 0,
   c2_token_cache_refresh_margin.2.2.2.2 (s2l "tok") 0 (by decide),
   c2_token_cache_refresh_margin.2.1 ⟨s2l "tok", 0 + 120⟩ 0 (.error (s2l "boom"))
     (by decide)⟩

/-- Refutation of claim C3 as stated: with a cached token one second from
expiry at `now = 0`, a refresh whose `expires_in` is 30 succeeds and hands
back a token whose recorded expiry is only 30 seconds past hand-off, less
than the claimed 60-second margin. -/
theorem c3_counterexample :
    getAccessToken ⟨s2l "old", 1⟩ 0 (.ok (s2l "new", 30)) =
      ({ value := s2l "new", expiresAt := 0 + 30 }, .ok (s2l "new"))
    ∧ ¬ ((0 : Int) + 60 ≤ 0 + 30) :=
  ⟨rfl, by decide⟩

/-- Claim C3 (amended): a successfully handed-back token either has its
recorded expiry strictly more than 60 seconds past the hand-off instant,
or was refreshed during the very call, its expiry being `now` plus the
`expires_in` the token endpoint returned; in particular the 60-second
margin always holds when `expires_in` is at least 60. -/
theorem c3_token_validity_margin :
    (∀ (c : TokenCache) (now : Int) (r : Except Str (Str × Int))
        (c' : TokenCache) (tok : Str),
      getAccessToken c now r = (c', .ok tok) →
        now + 60 < c'.expiresAt ∨ ∃ s, r = .ok (tok, s) ∧ c' = ⟨tok, now + s⟩)
    ∧ (∀ (c : TokenCache) (now : Int) (tok : Str) (s : Int)
        (c' : TokenCache) (t : Str),
        60 ≤ s → getAccessToken c now (.ok (tok, s)) = (c', .ok t) →
          now + 60 ≤ c'.expiresAt) := by
  constructor
  · intro c now r c' tok h
    by_cases hr : needsRefresh c now
    · rw [getAccessToken.eq_def, if_pos hr] at h
      cases r with
      | error e => simp at h
      | ok p =>
        obtain ⟨tok', s⟩ := p
        simp at h
        obtain ⟨h1, h2⟩ := h
        exact Or.inr ⟨s, by rw [h2], by rw [← h1, h2]⟩
    · rw [getAccessToken.eq_def, if_neg hr] at h
      simp at h
      obtain ⟨h1, -⟩ := h
      rw [← h1]
      refine Or.inl ?_
      have : ¬ (c.value.isEmpty || decide (now + 60 ≥ c.expiresAt)) = true := by
        simpa [needsRefresh] using hr
      simp at this
      omega
  · intro c now tok s c' t hs h
    by_cases hr : needsRefresh c now
    · rw [getAccessToken.eq_def, if_pos hr] at h
      simp at h
      obtain ⟨h1, -⟩ := h
      rw [← h1]
      simp
      omega
    · rw [getAccessToken.eq_def, if_neg hr] at h
      simp at h
      obtain ⟨h1, -⟩ := h
      rw [← h1]
      have : ¬ (c.value.isEmpty || decide (now + 60 ≥ c.expiresAt)) = true := by
        simpa [needsRefresh] using hr
      simp at this
      omega

/-- Witness for the amended C3 at a concrete refresh. -/
theorem c3_witness :
    (60 : Int) ≤ 3600 ∧
    (0 : Int) + 60 ≤ (TokenCache.mk (s2l "t") (0 + 3600)).expiresAt :=
  ⟨by decide,
   c3_token_validity_margin.2 ⟨[], 0⟩ 0 (s2l "t") 3600
     ⟨s2l "t", 0 + 3600⟩ (s2l "t") (by decide) rfl⟩

/-- Claim C7: when the refresh operation fails, the credential error
propagates to the caller and both cached fields are left exactly as they
were before the call. -/
theorem c7_refresh_failure_leaves_cache :
    ∀ (c : TokenCache) (now : Int) (e : Str),
      needsRefresh c now = true →
        getAccessToken c now (.error e) = (c, .error e) := by
  intro c now e h
  simp [getAccessToken, h]

/-- Witness for C7 at a concrete expired cache. -/
theorem c7_witness :
    needsRefresh ⟨s2l "old", 10⟩ 0 = true ∧
    getAccessToken ⟨s2l "old", 10⟩ 0 (.error (s2l "HTTP 500")) =
      (⟨s2l "old", 10⟩, .error (s2l "HTTP 500")) :=
  ⟨by decide, c7_refresh_failure_leaves_cache ⟨s2l "old", 10⟩ 0 (s2l "HTTP 500") (by decide)⟩

/-! ### Claim theorems: response extraction -/

/-- Claim C4: when the raw model text has no opening brace, no closing
brace, or its last closing brace does not strictly follow its first
opening brace, extraction returns the whole upstream envelope unchanged
and raises no error; otherwise the span from the first opening brace to
the last closing brace inclusive is parsed, a parse failure being the
`MalformedResponse` hard error, distinct from the fallback. -/
theorem c4_extractor_fallback_and_error :
    ∀ (full : Json) (raw : Str),
      (('\x7b' ∉ raw ∨ '\x7d' ∉ raw) → extractJson full raw = .ok full)
      ∧ (∀ s e, firstIdxOf '\x7b' raw = some s → lastIdxOf '\x7d' raw = some e →
          e ≤ s → extractJson full raw = .ok full)
      ∧ (∀ s e, firstIdxOf '\x7b' raw = some s → lastIdxOf '\x7d' raw = some e →
          s < e →
          extractJson full raw =
            match parseJson ((raw.drop s).take (e - s + 1)) with
            | some j => .ok j
            | none => .error .malformedResponse) := by
  intro full raw
  refine ⟨fun h => ?_, fun s e hs he hle => ?_, fun s e hs he hlt => ?_⟩
  · cases h with
    | inl h1 => simp [extractJson, (firstIdxOf_eq_none_iff _ _).2 h1]
    | inr h2 =>
      cases hf : firstIdxOf '\x7b' raw with
      | none => simp [extractJson, hf]
      | some s => simp [extractJson, hf, (lastIdxOf_eq_none_iff _ _).2 h2]
  · simp [extractJson, hs, he, if_pos hle]
  · have h1 : ¬ e ≤ s := by omega
    simp [extractJson, hs, he, h1]

/-- Witness for C4: brace-free text falls back to the envelope. -/
theorem c4_witness :
    ('\x7b' ∉ s2l "plain commentary" ∨ '\x7d' ∉ s2l "plain commentary")
    ∧ extractJson (Json.str (s2l "envelope")) (s2l "plain commentary") =
        .ok (Json.str (s2l "envelope")) :=
  ⟨Or.inl (by decide),
   (c4_extractor_fallback_and_error (Json.str (s2l "envelope"))
     (s2l "plain commentary")).1 (Or.inl (by decide))⟩

/-! ### Claim theorems: weight normalization -/

/-- Claim C6: `adjustWeight` maps a string `Weight` field by trimming it
and splitting at the last space, forcing the unit to `lb.` exactly when
the trimmed numeric portion is `1` and to `lbs.` otherwise, and leaves
the value untouched when the field is missing, non-string, or has no
space after trimming; in particular `1 lb.` stays, `2 lb.` pluralizes,
`1 1/2 lb.` pluralizes, and an object without `Weight` is unchanged. -/
theorem c6_weight_normalization :
    (∀ j, weightString j = none → adjustWeight j = j)
    ∧ (∀ j w, weightString j = some w → lastIdxOf ' ' (trimChars w) = none →
        adjustWeight j = j)
    ∧ (∀ (ms : List (Str × Json)) (w : Str) (pos : Nat),
        lookupField ms (s2l "Weight") = some (.str w) →
        lastIdxOf ' ' (trimChars w) = some pos →
        adjustWeight (.obj ms) =
          .obj (setField ms (s2l "Weight")
            (.str (trimChars ((trimChars w).take pos) ++ ' ' ::
              (if trimChars ((trimChars w).take pos) = s2l "1"
               then s2l "lb." else s2l "lbs.")))))
    ∧ adjustWeight (.obj [(s2l "Weight", .str (s2l "1 lb."))]) =
        .obj [(s2l "Weight", .str (s2l "1 lb."))]
    ∧ adjustWeight (.obj [(s2l "Weight", .str (s2l "2 lb."))]) =
        .obj [(s2l "Weight", .str (s2l "2 lbs."))]
    ∧ adjustWeight (.obj [(s2l "Weight", .str (s2l "1 1/2 lb."))]) =
        .obj [(s2l "Weight", .str (s2l "1 1/2 lbs."))]
    ∧ adjustWeight (.obj [(s2l "Name", .str (s2l "X"))]) =
        .obj [(s2l "Name", .str (s2l "X"))] := by
  refine ⟨fun j h => ?_, fun j w h1 h2 => ?_, fun ms w pos h1 h2 => ?_,
    rfl, rfl, rfl, rfl⟩
  · cases j with
    | obj ms =>
      rw [weightString] at h
      cases hl : lookupField ms (s2l "Weight") with
      | none => simp [adjustWeight, hl]
      | some v =>
        cases v with
        | str w => rw [hl] at h; simp at h
        | null => simp [adjustWeight, hl]
        | bool b => simp [adjustWeight, hl]
        | num n => simp [adjustWeight, hl]
        | arr xs => simp [adjustWeight, hl]
        | obj ms2 => simp [adjustWeight, hl]
    | null => rfl
    | bool b => rfl
    | num n => rfl
    | str s => rfl
    | arr xs => rfl
  · cases j with
    | obj ms =>
      rw [weightString] at h1
      cases hl : lookupField ms (s2l "Weight") with
      | none => rw [hl] at h1; simp at h1
      | some v =>
        cases v with
        | str w0 =>
          rw [hl] at h1
          simp at h1
          subst h1
          simp [adjustWeight, hl, h2]
        | null => rw [hl] at h1; simp at h1
        | bool b => rw [hl] at h1; simp at h1
        | num n => rw [hl] at h1; simp at h1
        | arr xs => rw [hl] at h1; simp at h1
        | obj ms2 => rw [hl] at h1; simp at h1
    | null => rfl
    | bool b => rfl
    | num n => rfl
    | str s => rfl
    | arr xs => rfl
  · simp [adjustWeight, h1, h2]

/-- Witness for C6 at concrete values. -/
theorem c6_witness :
    adjustWeight Json.null = Json.null ∧
    adjustWeight (.obj [(s2l "Weight", .str (s2l "7 lb."))]) =
      .obj [(s2l "Weight", .str (s2l "7 lbs."))] :=
  ⟨c6_weight_normalization.1 Json.null rfl,
   by
    have := c6_weight_normalization.2.2.1
      [(s2l "Weight", Json.str (s2l "7 lb."))] (s2l "7 lb.") 1 rfl (by rfl)
    simpa using this⟩

/-! ### Trim and setField lemmas, towards idempotence of adjustWeight -/

theorem dropWhile_head_false (p : Char → Bool) (l : Str) (c : Char) (t : Str)
    (h : l.dropWhile p = c :: t) : p c = false := by
  induction l with
  | nil => simp at h
  | cons a l ih =>
    rw [List.dropWhile_cons] at h
    by_cases ha : p a
    · rw [if_pos ha] at h
      exact ih h
    · rw [if_neg ha] at h
      cases h
      simpa using ha

theorem getLast?_dropWhile (p : Char → Bool) (y : Str) (c : Char) (t : Str)
    (h : y.dropWhile p = c :: t) : y.getLast? = (c :: t).getLast? := by
  induction y with
  | nil => simp at h
  | cons a y ih =>
    rw [List.dropWhile_cons] at h
    by_cases ha : p a
    · rw [if_pos ha] at h
      have hy : y ≠ [] := by
        intro hn
        rw [hn] at h
        simp at h
      cases y with
      | nil => exact absurd rfl hy
      | cons b y' => rw [List.getLast?_cons_cons]; exact ih h
    · rw [if_neg ha] at h
      cases h
      rfl

theorem trim_head_not_ws (l : Str) (c : Char) (t : Str)
    (h : trimChars l = c :: t) : isWsChar c = false := by
  rw [trimChars] at h
  have h1 : ((l.dropWhile isWsChar).reverse.dropWhile isWsChar).getLast? = some c := by
    rw [← List.head?_reverse, h]
    rfl
  cases hd : (l.dropWhile isWsChar).reverse.dropWhile isWsChar with
  | nil => rw [hd] at h1; simp at h1
  | cons e r =>
    have h2 := getLast?_dropWhile isWsChar (l.dropWhile isWsChar).reverse e r hd
    rw [hd] at h1
    rw [h1] at h2
    rw [List.getLast?_reverse] at h2
    cases hh : l.dropWhile isWsChar with
    | nil => rw [hh] at h2; simp at h2
    | cons c2 t2 =>
      rw [hh] at h2
      simp at h2
      have := dropWhile_head_false isWsChar l c2 t2 hh
      rw [h2] at this
      exact this

theorem trim_getLast_not_ws (l : Str) (d : Char)
    (h : (trimChars l).getLast? = some d) : isWsChar d = false := by
  rw [trimChars, List.getLast?_reverse] at h
  cases hd : (l.dropWhile isWsChar).reverse.dropWhile isWsChar with
  | nil => rw [hd] at h; simp at h
  | cons e r =>
    rw [hd] at h
    simp at h
    have := dropWhile_head_false isWsChar (l.dropWhile isWsChar).reverse e r hd
    rw [h] at this
    exact this

theorem trim_eq_self (c : Char) (t : Str) (d : Char)
    (hc : isWsChar c = false)
    (hd : (c :: t).getLast? = some d) (hdw : isWsChar d = false) :
    trimChars (c :: t) = c :: t := by
  have h0 : (c :: t).dropWhile isWsChar = c :: t := by
    rw [List.dropWhile_cons, if_neg (by simp [hc])]
  rw [trimChars, h0]
  cases hr : (c :: t).reverse with
  | nil => simp at hr
  | cons e r =>
    have he : e = d := by
      have hh : (c :: t).reverse.head? = some e := by rw [hr]; rfl
      rw [List.head?_reverse, hd] at hh
      exact (Option.some_inj.1 hh).symm
    have h1 : (e :: r).dropWhile isWsChar = e :: r := by
      rw [List.dropWhile_cons, if_neg (by simp [he, hdw])]
    rw [h1, ← hr, List.reverse_reverse]

theorem getLast?_cons_ex (c : Char) (t : Str) : ∃ d, (c :: t).getLast? = some d := by
  induction t generalizing c with
  | nil => exact ⟨c, rfl⟩
  | cons b t ih =>
    rw [List.getLast?_cons_cons]
    exact ih b

theorem trim_idem (l : Str) : trimChars (trimChars l) = trimChars l := by
  cases h : trimChars l with
  | nil => rfl
  | cons c t =>
    have hc := trim_head_not_ws l c t h
    obtain ⟨d, hd⟩ := getLast?_cons_ex c t
    have hdw : isWsChar d = false := trim_getLast_not_ws l d (by rw [h]; exact hd)
    exact trim_eq_self c t d hc hd hdw

theorem trim_cons_not_ws (c : Char) (t : Str) (hc : isWsChar c = false) :
    ∃ t2, trimChars (c :: t) = c :: t2 := by
  rw [trimChars, List.dropWhile_cons, if_neg (by simp [hc])]
  have hrc : (c :: t).reverse = t.reverse ++ [c] := by simp
  rw [hrc, List.dropWhile_append]
  by_cases he : (t.reverse.dropWhile isWsChar).isEmpty
  · rw [if_pos he]
    exact ⟨[], by simp [List.dropWhile_cons, hc]⟩
  · rw [if_neg he]
    exact ⟨(t.reverse.dropWhile isWsChar).reverse, by simp⟩

theorem lookupField_setField_self (ms : List (Str × Json)) (k : Str) (v : Json) :
    lookupField (setField ms k v) k = some v := by
  induction ms with
  | nil => simp [setField, lookupField]
  | cons m rest ih =>
    obtain ⟨k', w⟩ := m
    rw [setField]
    by_cases h : k' = k
    · rw [if_pos h, lookupField, if_pos rfl]
    · rw [if_neg h, lookupField, if_neg h]
      exact ih

theorem setField_setField_self (ms : List (Str × Json)) (k : Str) (v v' : Json) :
    setField (setField ms k v) k v' = setField ms k v' := by
  induction ms with
  | nil => simp [setField]
  | cons m rest ih =>
    obtain ⟨k', w⟩ := m
    rw [setField]
    by_cases h : k' = k
    · rw [if_pos h, setField, if_pos rfl, setField, if_pos h]
    · rw [if_neg h, setField, if_neg h, setField, if_neg h, ih]

theorem trim_numeric_unit (c : Char) (t2 : Str) (u : Str)
    (hc : isWsChar c = false)
    (hu : u = s2l "lb." ∨ u = s2l "lbs.") :
    trimChars ((c :: t2) ++ ' ' :: u) = (c :: t2) ++ ' ' :: u := by
  have hlast : ((c :: t2) ++ ' ' :: u).getLast? = some '.' := by
    rw [List.getLast?_append]
    rcases hu with h | h <;> subst h <;> rfl
  rw [List.cons_append] at hlast ⊢
  exact trim_eq_self c (t2 ++ ' ' :: u) '.' hc hlast (by decide)

/-- The shape written back by one `adjustWeight` rewrite is a fixed point
of a second rewrite. -/
theorem adjustWeight_setField_fixed (ms : List (Str × Json)) (c : Char)
    (t2 : Str) (u : Str)
    (hc : isWsChar c = false)
    (hc1 : trimChars (c :: t2) = c :: t2)
    (hu2 : u = (if (c :: t2 : Str) = s2l "1" then s2l "lb." else s2l "lbs.")) :
    adjustWeight (.obj (setField ms (s2l "Weight")
        (.str ((c :: t2) ++ ' ' :: u)))) =
      .obj (setField ms (s2l "Weight") (.str ((c :: t2) ++ ' ' :: u))) := by
  have hu : u = s2l "lb." ∨ u = s2l "lbs." := by
    rw [hu2]
    by_cases h : (c :: t2 : Str) = s2l "1"
    · exact Or.inl (if_pos h)
    · exact Or.inr (if_neg h)
  have hwne : ' ' ∉ u := by
    rcases hu with h | h <;> subst h <;> decide
  have hli : lastIdxOf ' ' ((c :: t2) ++ ' ' :: u) = some (c :: t2 : Str).length :=
    lastIdxOf_append_sep ' ' (c :: t2) u hwne
  have ht : trimChars ((c :: t2) ++ ' ' :: u) = (c :: t2) ++ ' ' :: u :=
    trim_numeric_unit c t2 u hc hu
  have htk : ((c :: t2) ++ ' ' :: u).take (c :: t2 : Str).length = c :: t2 :=
    List.take_left _ _
  have hlk := lookupField_setField_self ms (s2l "Weight")
    (.str ((c :: t2) ++ ' ' :: u))
  simp only [adjustWeight, hlk, ht, hli, htk, hc1, setField_setField_self]
  rw [← hu2]

/-- Claim C10: weight normalization is idempotent; applying
`adjustWeight` twice yields exactly the result of applying it once. -/
theorem c10_adjust_weight_idempotent :
    ∀ j, adjustWeight (adjustWeight j) = adjustWeight j := by
  intro j
  cases j with
  | null => rfl
  | bool b => rfl
  | num n => rfl
  | str s => rfl
  | arr xs => rfl
  | obj ms =>
    cases hl : lookupField ms (s2l "Weight") with
    | none => simp [adjustWeight, hl]
    | some v =>
      cases v with
      | null => simp [adjustWeight, hl]
      | bool b => simp [adjustWeight, hl]
      | num n => simp [adjustWeight, hl]
      | arr xs => simp [adjustWeight, hl]
      | obj ms2 => simp [adjustWeight, hl]
      | str w =>
        cases hp : lastIdxOf ' ' (trimChars w) with
        | none => simp [adjustWeight, hl, hp]
        | some pos =>
          have h1 : adjustWeight (.obj ms) =
              .obj (setField ms (s2l "Weight")
                (.str (trimChars ((trimChars w).take pos) ++ ' ' ::
                  (if trimChars ((trimChars w).take pos) = s2l "1"
                   then s2l "lb." else s2l "lbs.")))) := by
            simp only [adjustWeight, hl, hp]
          rw [h1]
          cases hw : trimChars w with
          | nil =>
            rw [hw] at hp
            simp [lastIdxOf] at hp
          | cons hd tl =>
            have hhd : isWsChar hd = false := trim_head_not_ws w hd tl hw
            have hg := lastIdxOf_get ' ' (trimChars w) pos hp
            rw [hw] at hg
            obtain ⟨k, hk⟩ : ∃ k, pos = k + 1 := by
              cases pos with
              | zero =>
                simp at hg
                rw [hg] at hhd
                simp [isWsChar] at hhd
              | succ k => exact ⟨k, rfl⟩
            have htake : (trimChars w).take pos = hd :: tl.take k := by
              rw [hw, hk, List.take_succ_cons]
            obtain ⟨t2, ht2⟩ := trim_cons_not_ws hd (tl.take k) hhd
            have hnp : trimChars ((trimChars w).take pos) = hd :: t2 := by
              rw [htake, ht2]
            have hfix : trimChars (hd :: t2) = hd :: t2 := by
              rw [← hnp]
              exact trim_idem _
            rw [hw] at hnp
            rw [hnp]
            exact adjustWeight_setField_fixed ms hd t2 _ hhd hfix rfl

/-! ### Parser round-trip lemmas -/

theorem scanString_append (s : Str) (rest : Str) (hs : cleanStr s = true) :
    scanString (s ++ '"' :: rest) = some (s, rest) := by
  induction s with
  | nil => simp [scanString]
  | cons c s ih =>
    rw [cleanStr, List.all_cons, Bool.and_eq_true] at hs
    obtain ⟨hc, hrest⟩ := hs
    have hne : ¬ c = '"' := by
      intro h
      subst h
      simp [cleanChar] at hc
    rw [List.cons_append, scanString, if_neg hne, ih hrest]

theorem digitChar_facts (d : Nat) (hd : d < 10) :
    (digitChar d).isDigit = true ∧ (digitChar d).toNat - 48 = d := by
  interval_cases d <;> exact ⟨rfl, rfl⟩

theorem natToCharsAux_ne_nil (fuel n : Nat) (h : n < fuel) :
    natToCharsAux fuel n ≠ [] := by
  cases fuel with
  | zero => omega
  | succ f =>
    rw [natToCharsAux]
    by_cases h10 : n < 10
    · simp [h10]
    · simp [h10]

theorem natToCharsAux_all_digits (fuel : Nat) :
    ∀ n, n < fuel → ∀ c ∈ natToCharsAux fuel n, c.isDigit = true := by
  induction fuel with
  | zero => intro n h; omega
  | succ f ih =>
    intro n h c hc
    rw [natToCharsAux] at hc
    by_cases h10 : n < 10
    · rw [if_pos h10] at hc
      simp at hc
      subst hc
      exact (digitChar_facts n h10).1
    · rw [if_neg h10] at hc
      rw [List.mem_append] at hc
      cases hc with
      | inl hm => exact ih (n / 10) (by omega) c hm
      | inr hm =>
        simp at hm
        subst hm
        exact (digitChar_facts (n % 10) (by omega)).1

theorem digitsVal_append_singleton (acc : Nat) (xs : Str) (d : Char) :
    digitsVal acc (xs ++ [d]) = 10 * digitsVal acc xs + (d.toNat - 48) := by
  rw [digitsVal, List.foldl_append]
  rfl

theorem natToCharsAux_val (fuel : Nat) :
    ∀ n acc, n < fuel →
      digitsVal acc (natToCharsAux fuel n) = acc * tenPowAux fuel n + n := by
  induction fuel with
  | zero => intro n acc h; omega
  | succ f ih =>
    intro n acc h
    rw [natToCharsAux, tenPowAux]
    by_cases h10 : n < 10
    · rw [if_pos h10, if_pos h10]
      rw [digitsVal]
      simp [List.foldl_cons, (digitChar_facts n h10).2]
      omega
    · rw [if_neg h10, if_neg h10]
      rw [digitsVal_append_singleton, ih (n / 10) acc (by omega),
        (digitChar_facts (n % 10) (by omega)).2]
      have := Nat.div_add_mod n 10
      ring_nf
      omega

theorem scanDigits_run (ds : Str) :
    ∀ acc rest, (∀ c ∈ ds, c.isDigit = true) → headNotDigit rest = true →
      scanDigits (ds ++ rest) acc = (digitsVal acc ds, rest) := by
  induction ds with
  | nil =>
    intro acc rest _ hrest
    cases rest with
    | nil => rfl
    | cons c r =>
      rw [headNotDigit] at hrest
      simp at hrest
      simp [scanDigits, hrest, digitsVal]
  | cons d ds ih =>
    intro acc rest hds hrest
    have hd : d.isDigit = true := hds d (by simp)
    rw [List.cons_append, scanDigits, if_pos hd, ih _ rest (fun c hc => hds c (by simp [hc])) hrest]
    rfl

theorem natToChars_val (n : Nat) (rest : Str) (hrest : headNotDigit rest = true) :
    scanDigits (natToChars n ++ rest) 0 = (n, rest) := by
  rw [natToChars, scanDigits_run _ 0 rest (natToCharsAux_all_digits (n + 1) n (by omega)) hrest,
    natToCharsAux_val (n + 1) n 0 (by omega)]
  simp

theorem natToChars_head_digit (n : Nat) :
    ∃ c t, natToChars n = c :: t ∧ c.isDigit = true := by
  rw [natToChars]
  cases hh : natToCharsAux (n + 1) n with
  | nil => exact absurd hh (natToCharsAux_ne_nil (n + 1) n (by omega))
  | cons c t =>
    refine ⟨c, t, rfl, ?_⟩
    exact natToCharsAux_all_digits (n + 1) n (by omega) c (by simp [hh])

theorem parseVal_digit_head (f : Nat) (c : Char) (rest : Str) (hc : c.isDigit = true) :
    parseVal (f + 1) (c :: rest) =
      (match scanDigits (c :: rest) 0 with
       | (n, r) => some (.num (Int.ofNat n), r)) := by
  have h1 : ¬ c = '\x7b' := by
    intro h; subst h; exact absurd hc (by decide)
  have h2 : ¬ c = '[' := by
    intro h; subst h; exact absurd hc (by decide)
  have h3 : ¬ c = '"' := by
    intro h; subst h; exact absurd hc (by decide)
  have ht : ¬ (c :: rest : Str).take 4 = s2l "true" := by
    intro h
    rw [show (4 : Nat) = 3 + 1 from rfl, List.take_succ_cons] at h
    injection h with h1 h2
    subst h1
    exact absurd hc (by decide)
  have hf : ¬ (c :: rest : Str).take 5 = s2l "false" := by
    intro h
    rw [show (5 : Nat) = 4 + 1 from rfl, List.take_succ_cons] at h
    injection h with h1 h2
    subst h1
    exact absurd hc (by decide)
  have hn : ¬ (c :: rest : Str).take 4 = s2l "null" := by
    intro h
    rw [show (4 : Nat) = 3 + 1 from rfl, List.take_succ_cons] at h
    injection h with h1 h2
    subst h1
    exact absurd hc (by decide)
  have h4 : ¬ c = '-' := by
    intro h; subst h; exact absurd hc (by decide)
  simp only [parseVal]
  rw [if_neg h1, if_neg h2, if_neg h3, if_neg ht, if_neg hf, if_neg hn,
    if_neg h4, if_pos hc]

theorem parseVal_quote (f : Nat) (rest : Str) :
    parseVal (f + 1) ('"' :: rest) =
      (match scanString rest with
       | none => none
       | some (s, r) => some (.str s, r)) := by
  simp only [parseVal]
  simp

theorem parseVal_lbrace (f : Nat) (rest : Str) :
    parseVal (f + 1) ('\x7b' :: rest) =
      (if rest.head? = some '\x7d' then some (.obj [], rest.tail)
       else
         match parseMembers f rest with
         | none => none
         | some (ms, r) => some (.obj ms, r)) := by
  simp only [parseVal]
  simp

theorem parseVal_lbracket (f : Nat) (rest : Str) :
    parseVal (f + 1) ('[' :: rest) =
      (if rest.head? = some ']' then some (.arr [], rest.tail)
       else
         match parseElems f rest with
         | none => none
         | some (es, r) => some (.arr es, r)) := by
  simp only [parseVal]
  simp

theorem parseVal_dump_str (f : Nat) (s rest : Str) (hs : cleanStr s = true)
    (hf : 1 ≤ f) :
    parseVal f (dumpJson (.str s) ++ rest) = some (.str s, rest) := by
  obtain ⟨f', rfl⟩ : ∃ f', f = f' + 1 := ⟨f - 1, by omega⟩
  have hd : dumpJson (.str s) ++ rest = '"' :: (s ++ '"' :: rest) := by
    simp [dumpJson]
  rw [hd, parseVal_quote, scanString_append s rest hs]

theorem parseVal_dump_num (f : Nat) (n : Int) (rest : Str) (hn : 0 ≤ n)
    (hrest : headNotDigit rest = true) (hf : 1 ≤ f) :
    parseVal f (dumpJson (.num n) ++ rest) = some (.num n, rest) := by
  obtain ⟨f', rfl⟩ : ∃ f', f = f' + 1 := ⟨f - 1, by omega⟩
  have hd : dumpJson (.num n) = natToChars n.toNat := by
    simp [dumpJson, intToChars, Int.not_lt.2 hn]
  obtain ⟨c, t, hct, hcd⟩ := natToChars_head_digit n.toNat
  have hshape : dumpJson (.num n) ++ rest = c :: (t ++ rest) := by
    rw [hd, hct]
    rfl
  rw [hshape, parseVal_digit_head f' c (t ++ rest) hcd]
  have hback : (c :: (t ++ rest) : Str) = natToChars n.toNat ++ rest := by
    rw [hct]
    rfl
  rw [hback, natToChars_val n.toNat rest hrest]
  simp [Int.toNat_of_nonneg hn]

theorem dumpJson_length_pos (v : Json) : 1 ≤ (dumpJson v).length := by
  cases v with
  | null => decide
  | bool b => cases b <;> decide
  | num n =>
    rw [dumpJson, intToChars]
    by_cases h : n < 0
    · rw [if_pos h]
      simp
    · rw [if_neg h, natToChars]
      have := natToCharsAux_ne_nil (n.toNat + 1) n.toNat (by omega)
      cases hh : natToCharsAux (n.toNat + 1) n.toNat with
      | nil => exact absurd hh this
      | cons c t => simp [hh]
  | str s => simp [dumpJson]
  | arr xs => simp [dumpJson]
  | obj ms => simp [dumpJson]

theorem dumpElemsJ_cons_head (x : Json) (xs : List Json) (s : Str)
    (hx : x = Json.str s) :
    ∃ t, dumpElemsJ (x :: xs) = '"' :: t := by
  subst hx
  cases xs with
  | nil => exact ⟨s ++ ['"'], by simp [dumpElemsJ, dumpJson]⟩
  | cons y ys =>
    exact ⟨(s ++ ['"']) ++ ',' :: dumpElemsJ (y :: ys), by simp [dumpElemsJ, dumpJson]⟩

theorem parseElems_dump (xs : List Json) :
    ∀ (rest : Str) (f : Nat), xs ≠ [] →
      (xs.all fun v => match v with | .str s => cleanStr s | _ => false) = true →
      2 * (dumpElemsJ xs ++ ']' :: rest).length + 2 ≤ f →
      parseElems f (dumpElemsJ xs ++ ']' :: rest) = some (xs, rest) := by
  induction xs with
  | nil => intro rest f h; exact absurd rfl h
  | cons x xs ih =>
    intro rest f _ hall hf
    rw [List.all_cons, Bool.and_eq_true] at hall
    obtain ⟨hx, hxs⟩ := hall
    obtain ⟨s, rfl⟩ : ∃ s, x = Json.str s := by
      cases x with
      | str s => exact ⟨s, rfl⟩
      | null => simp at hx
      | bool b => simp at hx
      | num n => simp at hx
      | arr ys => simp at hx
      | obj ms => simp at hx
    have hs : cleanStr s = true := by simpa using hx
    obtain ⟨f', rfl⟩ : ∃ f', f = f' + 1 := ⟨f - 1, by omega⟩
    cases xs with
    | nil =>
      have hval := parseVal_dump_str f' s (']' :: rest) hs (by omega)
      have hne : (']' : Char) ≠ ',' := by decide
      simp only [dumpElemsJ, parseElems]
      simp [hval, hne]
    | cons y ys =>
      have hshape : dumpElemsJ (Json.str s :: y :: ys) ++ ']' :: rest =
          dumpJson (.str s) ++ ',' :: (dumpElemsJ (y :: ys) ++ ']' :: rest) := by
        rw [dumpElemsJ]
        simp [List.append_assoc]
      have hlen : 2 * (dumpElemsJ (y :: ys) ++ ']' :: rest).length + 2 ≤ f' := by
        have h1 := dumpJson_length_pos (.str s)
        rw [hshape] at hf
        simp [List.length_append] at hf ⊢
        omega
      have hval := parseVal_dump_str f' s
        (',' :: (dumpElemsJ (y :: ys) ++ ']' :: rest)) hs (by omega)
      have hrec := ih rest f' (by simp) hxs hlen
      rw [hshape]
      simp only [parseElems]
      simp [hval, hrec]

theorem parseVal_dump_value (v : Json) (rest : Str) (f : Nat)
    (hv : validValue v = true) (hrest : headNotDigit rest = true)
    (hf : 2 * (dumpJson v ++ rest).length + 1 ≤ f) :
    parseVal f (dumpJson v ++ rest) = some (v, rest) := by
  cases v with
  | null => simp [validValue] at hv
  | bool b => simp [validValue] at hv
  | obj ms => simp [validValue] at hv
  | str s =>
    exact parseVal_dump_str f s rest (by simpa [validValue] using hv) (by omega)
  | num n =>
    have hn : 0 ≤ n := by simpa [validValue] using hv
    exact parseVal_dump_num f n rest hn hrest (by omega)
  | arr xs =>
    rw [validValue] at hv
    obtain ⟨f', rfl⟩ : ∃ f', f = f' + 1 := ⟨f - 1, by omega⟩
    cases xs with
    | nil =>
      have hshape : dumpJson (.arr []) ++ rest = '[' :: ']' :: rest := by
        simp [dumpJson, dumpElemsJ]
      rw [hshape, parseVal_lbracket]
      simp
    | cons x xs' =>
      have hx : ∃ s, x = Json.str s := by
        rw [List.all_cons, Bool.and_eq_true] at hv
        obtain ⟨hx1, -⟩ := hv
        cases x with
        | str s => exact ⟨s, rfl⟩
        | null => simp at hx1
        | bool b => simp at hx1
        | num n => simp at hx1
        | arr ys => simp at hx1
        | obj ms => simp at hx1
      obtain ⟨s, hxs⟩ := hx
      have hshape : dumpJson (.arr (x :: xs')) ++ rest =
          '[' :: (dumpElemsJ (x :: xs') ++ ']' :: rest) := by
        simp [dumpJson]
      rw [hshape, parseVal_lbracket]
      obtain ⟨t, hht⟩ := dumpElemsJ_cons_head x xs' s hxs
      rw [if_neg (by rw [hht]; simp)]
      have hlen : 2 * (dumpElemsJ (x :: xs') ++ ']' :: rest).length + 2 ≤ f' := by
        rw [hshape] at hf
        simp [List.length_append] at hf ⊢
        omega
      rw [parseElems_dump (x :: xs') rest f' (by simp) hv hlen]

theorem dumpMembersJ_cons_head (m : Str × Json) (tl : List (Str × Json)) :
    ∃ t, dumpMembersJ (m :: tl) = '"' :: t := by
  obtain ⟨k, v⟩ := m
  cases tl with
  | nil => exact ⟨k ++ '"' :: ':' :: dumpJson v, by simp [dumpMembersJ]⟩
  | cons m2 tl2 =>
    exact ⟨(k ++ '"' :: ':' :: dumpJson v) ++ ',' :: dumpMembersJ (m2 :: tl2),
      by simp [dumpMembersJ]⟩

theorem parseMembers_dump (ms : List (Str × Json)) :
    ∀ (rest : Str) (f : Nat), ms ≠ [] →
      (ms.all fun m => cleanStr m.1 && validValue m.2) = true →
      2 * (dumpMembersJ ms ++ '\x7d' :: rest).length + 2 ≤ f →
      parseMembers f (dumpMembersJ ms ++ '\x7d' :: rest) = some (ms, rest) := by
  induction ms with
  | nil => intro rest f h; exact absurd rfl h
  | cons m tl ih =>
    intro rest f _ hall hf
    obtain ⟨k, v⟩ := m
    rw [List.all_cons, Bool.and_eq_true] at hall
    obtain ⟨hm, htl⟩ := hall
    rw [Bool.and_eq_true] at hm
    obtain ⟨hk, hv⟩ := hm
    obtain ⟨f', rfl⟩ : ∃ f', f = f' + 1 := ⟨f - 1, by omega⟩
    cases tl with
    | nil =>
      have hshape : dumpMembersJ [(k, v)] ++ '\x7d' :: rest =
          '"' :: (k ++ '"' :: (':' :: (dumpJson v ++ '\x7d' :: rest))) := by
        rw [dumpMembersJ]
        simp [List.append_assoc]
      have hval : parseVal f' (dumpJson v ++ '\x7d' :: rest) =
          some (v, '\x7d' :: rest) := by
        refine parseVal_dump_value v _ f' hv rfl ?_
        rw [hshape] at hf
        simp [List.length_append] at hf ⊢
        omega
      have hscan := scanString_append k (':' :: (dumpJson v ++ '\x7d' :: rest)) hk
      have hne : ('\x7d' : Char) ≠ ',' := by decide
      rw [hshape]
      simp only [parseMembers]
      simp [hscan, hval, hne]
    | cons m2 tl2 =>
      have hshape : dumpMembersJ ((k, v) :: m2 :: tl2) ++ '\x7d' :: rest =
          '"' :: (k ++ '"' :: (':' :: (dumpJson v ++
            ',' :: (dumpMembersJ (m2 :: tl2) ++ '\x7d' :: rest)))) := by
        rw [dumpMembersJ]
        simp [List.append_assoc]
      have hlen : 2 * (dumpMembersJ (m2 :: tl2) ++ '\x7d' :: rest).length + 2 ≤ f' := by
        rw [hshape] at hf
        have h1 := dumpJson_length_pos v
        simp [List.length_append] at hf ⊢
        omega
      have hval : parseVal f' (dumpJson v ++
          ',' :: (dumpMembersJ (m2 :: tl2) ++ '\x7d' :: rest)) =
          some (v, ',' :: (dumpMembersJ (m2 :: tl2) ++ '\x7d' :: rest)) := by
        refine parseVal_dump_value v _ f' hv rfl ?_
        rw [hshape] at hf
        simp [List.length_append] at hf ⊢
        omega
      have hscan := scanString_append k
        (':' :: (dumpJson v ++ ',' :: (dumpMembersJ (m2 :: tl2) ++ '\x7d' :: rest))) hk
      have hrec := ih rest f' (by simp) htl hlen
      rw [hshape]
      simp only [parseMembers]
      simp [hscan, hval, hrec]

theorem extractJson_found (full : Json) (raw : Str) (s e : Nat)
    (hs : firstIdxOf '\x7b' raw = some s) (he : lastIdxOf '\x7d' raw = some e)
    (hlt : s < e) :
    extractJson full raw =
      match parseJson ((raw.drop s).take (e - s + 1)) with
      | some j => .ok j
      | none => .error .malformedResponse := by
  have h1 : ¬ e ≤ s := by omega
  simp [extractJson, hs, he, h1]

theorem parseJson_dump_obj (ms : List (Str × Json))
    (hall : (ms.all fun m => cleanStr m.1 && validValue m.2) = true) :
    parseJson (dumpJson (.obj ms)) = some (.obj ms) := by
  cases ms with
  | nil => rfl
  | cons m tl =>
    have hshape : dumpJson (.obj (m :: tl)) =
        '\x7b' :: (dumpMembersJ (m :: tl) ++ '\x7d' :: []) := rfl
    rw [parseJson, hshape]
    have hlen : ('\x7b' :: (dumpMembersJ (m :: tl) ++ '\x7d' :: []) : Str).length =
        (dumpMembersJ (m :: tl)).length + 2 := by
      simp
    rw [hlen]
    have hfuel : 2 * ((dumpMembersJ (m :: tl)).length + 2) + 2 =
        (2 * ((dumpMembersJ (m :: tl)).length + 2) + 1) + 1 := by omega
    rw [hfuel, parseVal_lbrace]
    obtain ⟨t, hht⟩ := dumpMembersJ_cons_head m tl
    rw [if_neg (by rw [hht]; simp)]
    rw [parseMembers_dump (m :: tl) [] _ (by simp) hall (by simp; omega)]

/-! ### Claim theorem: extractor round trip -/

/-- Claim C8: running the Response Extractor on the compact JSON
serialization of a structurally valid Generated Item returns exactly that
item: the first brace is at index 0, the last closing brace is the final
character, the selected span is the whole serialization, and the parse
recovers the item. -/
theorem c8_extract_dump_roundtrip :
    ∀ (full item : Json), validItem item = true →
      extractJson full (dumpJson item) = .ok item := by
  intro full item hv
  obtain ⟨ms, rfl⟩ : ∃ ms, item = .obj ms := by
    cases item with
    | obj ms => exact ⟨ms, rfl⟩
    | null => simp [validItem] at hv
    | bool b => simp [validItem] at hv
    | num n => simp [validItem] at hv
    | str s => simp [validItem] at hv
    | arr xs => simp [validItem] at hv
  rw [validItem, Bool.and_eq_true] at hv
  obtain ⟨-, hall⟩ := hv
  have hshape : dumpJson (.obj ms) =
      ('\x7b' :: dumpMembersJ ms) ++ '\x7d' :: [] := by
    rw [dumpJson]
  have hfirst : firstIdxOf '\x7b' (dumpJson (.obj ms)) = some 0 := by
    rw [hshape]
    simp [firstIdxOf]
  have hlast : lastIdxOf '\x7d' (dumpJson (.obj ms)) =
      some ((dumpMembersJ ms).length + 1) := by
    rw [hshape]
    have := lastIdxOf_append_sep '\x7d' ('\x7b' :: dumpMembersJ ms) [] (by simp)
    simpa using this
  rw [extractJson_found full (dumpJson (.obj ms)) 0 ((dumpMembersJ ms).length + 1)
    hfirst hlast (by omega)]
  have hslice : ((dumpJson (.obj ms)).drop 0).take ((dumpMembersJ ms).length + 1 - 0 + 1) =
      dumpJson (.obj ms) := by
    rw [List.drop_zero]
    have hlen : (dumpJson (.obj ms)).length = (dumpMembersJ ms).length + 2 := by
      rw [hshape]
      simp
    rw [show (dumpMembersJ ms).length + 1 - 0 + 1 = (dumpMembersJ ms).length + 2 from by omega]
    rw [← hlen, List.take_length]
  rw [hslice, parseJson_dump_obj ms hall]

/-- Witness for C8 at a concrete two-field item. -/
theorem c8_witness :
    validItem (.obj [(s2l "Name", .str (s2l "Ring")),
      (s2l "Properties", .arr [.str (s2l "warm"), .str (s2l "light")])]) = true
    ∧ extractJson Json.null (dumpJson (.obj [(s2l "Name", .str (s2l "Ring")),
        (s2l "Properties", .arr [.str (s2l "warm"), .str (s2l "light")])])) =
      .ok (.obj [(s2l "Name", .str (s2l "Ring")),
        (s2l "Properties", .arr [.str (s2l "warm"), .str (s2l "light")])]) :=
  ⟨by decide,
   c8_extract_dump_roundtrip Json.null
     (.obj [(s2l "Name", .str (s2l "Ring")),
      (s2l "Properties", .arr [.str (s2l "warm"), .str (s2l "light")])])
     (by decide)⟩

/-! ### Base64url and JWT lemmas -/

theorem intToChars_ofNat (n : Nat) : intToChars (Int.ofNat n) = natToChars n := by
  rw [intToChars, if_neg (by exact Int.not_lt.2 (Int.ofNat_nonneg n))]
  rfl

theorem urlSafe_takeWhile (l : Str) :
    urlSafeChars l = (l.takeWhile fun c => c ≠ '=').map b64UrlRepl := by
  induction l with
  | nil => rfl
  | cons c cs ih =>
    rw [urlSafeChars, List.takeWhile_cons]
    by_cases h1 : c = '+'
    · subst h1
      rw [if_pos rfl, if_pos (by decide), List.map_cons, ih]
      rfl
    · rw [if_neg h1]
      by_cases h2 : c = '/'
      · subst h2
        rw [if_pos rfl, if_pos (by decide), List.map_cons, ih]
        rfl
      · rw [if_neg h2]
        by_cases h3 : c = '='
        · subst h3
          rw [if_pos rfl, if_neg (by decide)]
          rfl
        · rw [if_neg h3, if_pos (by simpa using h3), List.map_cons, ih]
          have : b64UrlRepl c = c := by rw [b64UrlRepl, if_neg h1, if_neg h2]
          rw [this]

theorem mem_urlSafeChars (l : Str) (c : Char) (h : c ∈ urlSafeChars l) :
    ¬ c = '=' ∧ ¬ c = '+' ∧ ¬ c = '/' := by
  induction l with
  | nil => simp [urlSafeChars] at h
  | cons a as ih =>
    rw [urlSafeChars] at h
    by_cases h1 : a = '+'
    · rw [if_pos h1] at h
      rcases List.mem_cons.1 h with hc | hc
      · subst hc
        exact ⟨by decide, by decide, by decide⟩
      · exact ih hc
    · rw [if_neg h1] at h
      by_cases h2 : a = '/'
      · rw [if_pos h2] at h
        rcases List.mem_cons.1 h with hc | hc
        · subst hc
          exact ⟨by decide, by decide, by decide⟩
        · exact ih hc
      · rw [if_neg h2] at h
        by_cases h3 : a = '='
        · rw [if_pos h3] at h
          simp at h
        · rw [if_neg h3] at h
          rcases List.mem_cons.1 h with hc | hc
          · subst hc
            exact ⟨h3, h1, h2⟩
          · exact ih hc

theorem jwtPayload_eq_dump (email : Str) (now : Nat) :
    jwtPayload email now = dumpJson (jwtPayloadObj email now) := by
  simp only [jwtPayload, jwtPayloadObj, dumpJson, dumpMembersJ, intToChars_ofNat,
    List.append_assoc, List.cons_append]
  rfl

/-! ### Claim theorem: JWT assertion -/

/-- Claim C9: the minted assertion is `header.payload.signature`, the
header segment being the base64url of the fixed RS256/JWT header, the
payload segment the base64url of the JSON object with `iss` the issuer
email, the cloud-platform scope, the token-endpoint audience, `iat = now`
and `exp = now + 3600`; base64url output carries no padding: it is plain
base64 truncated at the first `=` with `+` mapped to `-` and `/` mapped
to `_`, so no `=`, `+` or `/` survives. -/
theorem c9_jwt_assertion_shape :
    (∀ (email : Str) (now : Nat) (sign : Str → List Nat),
      makeJwt email now sign =
        base64UrlEncode (strBytes jwtHeader) ++ '.' ::
        (base64UrlEncode (strBytes (jwtPayload email now)) ++ '.' ::
         base64UrlEncode (sign (base64UrlEncode (strBytes jwtHeader) ++ '.' ::
           base64UrlEncode (strBytes (jwtPayload email now))))))
    ∧ parseJson jwtHeader =
        some (Json.obj [(s2l "alg", .str (s2l "RS256")), (s2l "typ", .str (s2l "JWT"))])
    ∧ (∀ (email : Str) (now : Nat), cleanStr email = true →
        parseJson (jwtPayload email now) = some (jwtPayloadObj email now))
    ∧ (∀ bs : List Nat,
        base64UrlEncode bs =
          ((base64Encode bs).takeWhile fun c => c ≠ '=').map b64UrlRepl
        ∧ '=' ∉ base64UrlEncode bs ∧ '+' ∉ base64UrlEncode bs
        ∧ '/' ∉ base64UrlEncode bs) := by
  refine ⟨fun email now sign => ?_, ?_, fun email now hmail => ?_, fun bs => ?_⟩
  · simp [makeJwt, List.append_assoc]
  · rfl
  · rw [jwtPayload_eq_dump]
    refine parseJson_dump_obj _ ?_
    have h1 : cleanStr (s2l "iss") = true := by decide
    have h2 : cleanStr (s2l "scope") = true := by decide
    have h3 : cleanStr (s2l "aud") = true := by decide
    have h4 : cleanStr (s2l "iat") = true := by decide
    have h5 : cleanStr (s2l "exp") = true := by decide
    have h6 : cleanStr (s2l "https://www.googleapis.com/auth/cloud-platform") = true := by
      decide
    have h7 : cleanStr (s2l "https://oauth2.googleapis.com/token") = true := by decide
    have h8 : (0 : Int) ≤ Int.ofNat now := Int.ofNat_nonneg now
    have h9 : (0 : Int) ≤ Int.ofNat (now + 3600) := Int.ofNat_nonneg (now + 3600)
    have h10 : (0 : Int) ≤ (now : Int) + 3600 := by omega
    simp [List.all_cons, validValue, h1, h2, h3, h4, h5, h6, h7, h8, h9, h10, hmail]
  · refine ⟨urlSafe_takeWhile _, fun h => ?_, fun h => ?_, fun h => ?_⟩
    · exact (mem_urlSafeChars _ _ h).1 rfl
    · exact (mem_urlSafeChars _ _ h).2.1 rfl
    · exact (mem_urlSafeChars _ _ h).2.2 rfl

/-- Witness for C9 at a concrete issuer and instant. -/
theorem c9_witness :
    cleanStr (s2l "svc@proj.iam.gserviceaccount.com") = true
    ∧ parseJson (jwtPayload (s2l "svc@proj.iam.gserviceaccount.com") 7) =
        some (jwtPayloadObj (s2l "svc@proj.iam.gserviceaccount.com") 7) :=
  ⟨by decide,
   c9_jwt_assertion_shape.2.2.1 (s2l "svc@proj.iam.gserviceaccount.com") 7 (by decide)⟩

/-! ### Claim theorems: prompt composition -/

/-- Refutation of claim C1 as stated: a Common-rarity armor request
produces a prompt that does mention curses - the word occurs inside the
omission instruction `do NOT include any enchantment or curse` - while
the claim demands that Common prompts never mention curses. -/
theorem c1_counterexample :
    containsSub (s2l "curse")
      (buildPrompt [] (s2l "Armor") [] (s2l "Heavy") (s2l "Common") [] []) = true := by
  decide

/-- Claim C1 (amended): every composed prompt ends with exactly one
description instruction chosen by the enchantment gate.  When rarity is
not Common it is the instruction to include an enchantment, scale
enchantments according to rarity, and add curses only to items of
legendary rarity or greater.  When rarity is Common it is the
no-enchantment instruction, which contains no instruction to include an
enchantment and no instruction to add curses; the weapon variant never
mentions the word curse at all, while the armor and jewelry variants
mention it only inside the prohibition. -/
theorem c1_enchant_gating_amended :
    ∀ (name kind handedness subtype rarity clothingPiece extraDesc : Str),
      (∃ pre, buildPrompt name kind handedness subtype rarity clothingPiece extraDesc =
        pre ++ descInstr kind rarity)
      ∧ (rarity ≠ s2l "Common" →
          containsSub (s2l "and an enchantment") (descInstr kind rarity) = true
          ∧ containsSub (s2l "scale the enchantments appropriately according to rarity")
              (descInstr kind rarity) = true
          ∧ containsSub (s2l "only add curses to items of legendary rarity or greater")
              (descInstr kind rarity) = true)
      ∧ (rarity = s2l "Common" →
          containsSub (s2l "and an enchantment") (descInstr kind rarity) = false
          ∧ containsSub (s2l "add curses") (descInstr kind rarity) = false
          ∧ containsSub (s2l "do NOT include any enchantment") (descInstr kind rarity) = true
          ∧ (kind = s2l "Weapon" →
              containsSub (s2l "curse") (descInstr kind rarity) = false)) := by
  intro name kind handedness subtype rarity clothingPiece extraDesc
  refine ⟨?_, ?_, ?_⟩
  · by_cases hw : kind = s2l "Weapon"
    · refine ⟨weaponPromptBody name handedness subtype rarity extraDesc, ?_⟩
      simp only [buildPrompt, weaponPrompt, descInstr, hw]
      simp
    · by_cases ha : kind = s2l "Armor"
      · refine ⟨armorPromptBody name subtype clothingPiece extraDesc, ?_⟩
        have hna : ¬ (s2l "Armor" = s2l "Weapon") := by decide
        simp only [buildPrompt, armorPrompt, descInstr, hw, ha]
        simp [hna]
      · refine ⟨jewelryPromptBody name subtype rarity extraDesc, ?_⟩
        simp only [buildPrompt, jewelryPrompt, descInstr, hw, ha]
        simp
  · intro hr
    have hae : allowEnchantment rarity = true := by
      simp [allowEnchantment, hr]
    by_cases hw : kind = s2l "Weapon"
    · simp only [descInstr]
      rw [if_pos hw, if_pos hae]
      exact ⟨by decide, by decide, by decide⟩
    · by_cases ha : kind = s2l "Armor"
      · simp only [descInstr]
        rw [if_neg hw, if_pos ha, if_pos hae]
        exact ⟨by decide, by decide, by decide⟩
      · simp only [descInstr]
        rw [if_neg hw, if_neg ha, if_pos hae]
        exact ⟨by decide, by decide, by decide⟩
  · intro hr
    have hae : allowEnchantment rarity = false := by
      simp [allowEnchantment, hr]
    by_cases hw : kind = s2l "Weapon"
    · simp only [descInstr]
      rw [if_pos hw, if_neg (by simp [hae])]
      exact ⟨by decide, by decide, by decide, fun _ => by decide⟩
    · by_cases ha : kind = s2l "Armor"
      · simp only [descInstr]
        rw [if_neg hw, if_pos ha, if_neg (by simp [hae])]
        exact ⟨by decide, by decide, by decide, fun h => absurd h hw⟩
      · simp only [descInstr]
        rw [if_neg hw, if_neg ha, if_neg (by simp [hae])]
        exact ⟨by decide, by decide, by decide, fun h => absurd h hw⟩

/-- Witness for the amended C1 at a concrete request of each gate side. -/
theorem c1_witness :
    containsSub (s2l "only add curses to items of legendary rarity or greater")
      (descInstr (s2l "Weapon") (s2l "Rare")) = true
    ∧ containsSub (s2l "add curses") (descInstr (s2l "Armor") (s2l "Common")) = false :=
  ⟨((c1_enchant_gating_amended [] (s2l "Weapon") [] [] (s2l "Rare") [] []).2.1
      (by decide)).2.2,
   ((c1_enchant_gating_amended [] (s2l "Armor") [] [] (s2l "Common") [] []).2.2
      rfl).2.1⟩

/-- Refutation of claim C5 as stated: for subtype Heavy the claim demands
`Attunement = No`, but the composed armor prompt prefills
`Attunement: Yes` (the code keys attunement on the Clothes subtype, not
on Heavy/Shield). -/
theorem c5_counterexample :
    containsSub (s2l "  Attunement: Yes")
      (buildPrompt [] (s2l "Armor") [] (s2l "Heavy") (s2l "Rare") [] []) = true
    ∧ containsSub (s2l "  Attunement: No")
      (buildPrompt [] (s2l "Armor") [] (s2l "Heavy") (s2l "Rare") [] []) = false := by
  exact ⟨by decide, by decide⟩

/-- Claim C5 (amended): every Armor prompt prefills
`Attunement = No` exactly when the subtype is Clothes (Yes otherwise,
including Heavy and Shield) and `StealthDisadvantage = Yes` exactly when
the subtype is Heavy or Shield (No otherwise), injected as prefilled
parameter lines of the prompt text. -/
theorem c5_armor_prefill_amended :
    ∀ (name handedness subtype rarity clothingPiece extraDesc : Str),
      ∃ pre post,
        buildPrompt name (s2l "Armor") handedness subtype rarity clothingPiece extraDesc =
          pre ++ (s2l "  Attunement: " ++
            (if subtype = s2l "Clothes" then s2l "No" else s2l "Yes") ++ s2l "\n" ++
            s2l "  Stealth Disadvantage: " ++
            (if subtype = s2l "Heavy" || subtype = s2l "Shield" then s2l "Yes" else s2l "No") ++
            s2l "\n\n") ++ post := by
  intro name handedness subtype rarity clothingPiece extraDesc
  refine ⟨promptHeader ++
    s2l "I want an armor/clothing item\n" ++
    (if name.isEmpty then [] else s2l " called \"" ++ name ++ s2l "\"") ++
    s2l " with these parameters:\n" ++
    s2l "  Category: " ++ subtype ++ s2l "\n" ++
    s2l "  Piece: " ++ clothingPiece ++ s2l "\n" ++
    s2l "  Armor Class: " ++ (if subtype = s2l "Clothes" then s2l "N/A" else subtype) ++
    s2l "\n",
    s2l "Your JSON schema should be:\n" ++ armorSchemaA ++
    (if clothingPiece.isEmpty then [] else s2l "  ClothingPiece: " ++ clothingPiece ++ s2l "\n") ++
    (if extraDesc.isEmpty then [] else s2l "\nAdditional Details: " ++ extraDesc ++ s2l "\n") ++
    s2l "\nYour JSON schema should be:\n" ++ armorSchemaB ++
    s2l "\nPopulate fields after those prefilled above.\n" ++
    (if allowEnchantment rarity then gearEnchantInstr else armorPlainInstr), ?_⟩
  have hna : ¬ (s2l "Armor" = s2l "Weapon") := by decide
  simp only [buildPrompt, hna, if_false, if_neg hna, if_true]
  simp only [armorPrompt, armorPromptBody, List.append_assoc, List.cons_append,
    List.nil_append]

end DndSpec
